import Mathlib

/-!
Verification of the simulation execution and parallel aggregation engine of
`src/probability_calculator/__init__.py` (a Texas Hold'em win-probability
calculator).  The Python module is shallowly embedded below: pure fragments
become Lean functions, the external collaborators (`holdem_functions`: card
parsing, hand detection, comparison, board generation) are abstracted as an
`Oracle` structure and, where the specification pins their behaviour down,
modelled from the spec.  Counters are lists of naturals, probabilities are
rationals (Python's float division on these small integer counts is exact for
every value appearing in a theorem below), and the only runtime error the
Python code can raise on the paths studied here — `ZeroDivisionError` from
`float(sum(winner_list))` being `0.0` — becomes the `zeroDivision`
constructor of `EvalError`.
-/

namespace HoldemCalc

/-- Cards are opaque values with decidable equality; the engine never looks
inside a card, it only passes cards to the oracle and compares them for
membership when building the deck.  We use naturals, with `0..51` standing
for the 52-card domain. -/
abbrev Card := Nat

/-- The external hand-evaluation collaborator (`holdem_functions.detect_hand`
composed with `preprocess_board`, and `holdem_functions.compare_hands`).
`detectHand` returns the pair (hand-category bucket, strength key) for one
player's hole cards and a full board; `compareHands` maps the list of all
players' results to a winner index (0 = tie, i+1 = player i wins). -/
structure Oracle where
  detectHand : List Card → List Card → Nat × Nat
  compareHands : List (Nat × Nat) → Nat

/-- The runtime failure the engine actually produces: `ZeroDivisionError`
raised by `winner_list[1] / float_iterations` when `sum(winner_list) == 0`.
The source defines no other error for the reduction paths (in particular
there is no `EmptyTrialSet` and no `InvalidInput` anywhere in the module). -/
inductive EvalError where
  | zeroDivision
deriving DecidableEq

/-- `l[i] += x` on a Python list of ints: out-of-range reads default to 0 and
out-of-range writes are dropped; every theorem below only uses it in range,
where it agrees with Python. -/
def bumpAt (l : List Nat) (i x : Nat) : List Nat :=
  l.set i (l.getD i 0 + x)

/-- Lines 80–84 and 110–115 of the source (identical in both reducers):
`board = given_board[:]; board.extend(remaining_board)` when `given_board` is
truthy (a non-empty list), else `board = remaining_board`.  `none` models
Python `None`; both `None` and `[]` are falsy. -/
def buildFullBoard (givenBoard : Option (List Card)) (remaining : List Card) :
    List Card :=
  let gb := givenBoard.getD []
  if gb.isEmpty then remaining else gb ++ remaining

/-- Per-trial hand detection (lines 89–92 / 127–131): one oracle call per
player on the shared full board. -/
def trialResults (O : Oracle) (holeCards : List (List Card))
    (board : List Card) : List (Nat × Nat) :=
  holeCards.map (fun hc => O.detectHand hc board)

/-- One iteration of the sequential reducer's loop body (lines 78–98):
build the board, evaluate all hands, bump the winner/tie slot, and bump each
player's category histogram. -/
def seqStep (O : Oracle) (holeCards : List (List Card))
    (givenBoard : Option (List Card))
    (acc : List Nat × List (List Nat)) (remaining : List Card) :
    List Nat × List (List Nat) :=
  let board := buildFullBoard givenBoard remaining
  let results := trialResults O holeCards board
  let wi := O.compareHands results
  (bumpAt acc.1 wi 1,
   List.zipWith (fun hist r => bumpAt hist r.1 1) acc.2 results)

/-- The empty tallies of `_evaluate` (lines 66–69): `winner_list` of
`num_players + 1` zeros and one 10-bucket histogram per player. -/
def seqInit (np : Nat) : List Nat × List (List Nat) :=
  (List.replicate (np + 1) 0, List.replicate np (List.replicate 10 0))

/-- The sequential reducer run to exhaustion over a given trial stream. -/
def seqRun (O : Oracle) (holeCards : List (List Card))
    (givenBoard : Option (List Card)) (trials : List (List Card)) :
    List Nat × List (List Nat) :=
  trials.foldl (seqStep O holeCards givenBoard) (seqInit holeCards.length)

/-- Lines 100–101 and 187–188 (textually identical in the source): divide
`winner_list[1]` and `winner_list[2]` by `float(sum(winner_list))`; when the
sum is zero Python raises `ZeroDivisionError`. -/
def probReturn (winnerList : List Nat) : Except EvalError (Rat × Rat) :=
  let s := winnerList.sum
  if s = 0 then Except.error EvalError.zeroDivision
  else Except.ok ((winnerList.getD 1 0 : Rat) / (s : Rat),
                  (winnerList.getD 2 0 : Rat) / (s : Rat))

/-- Modelled from the spec: `holdem_functions.generate_exhaustive_boards`
(not under `src/`) produces every distinct combination of
`L = 5 - board_length` cards from the deck exactly once, in a fixed order;
the iteration budget is unused.  `List.sublistsLen` enumerates exactly the
length-`L` combinations of the deck list. -/
def generate_exhaustive_boards (deck : List Card) (numIterations : Nat)
    (boardLength : Nat) : List (List Card) :=
  deck.sublistsLen (5 - boardLength)

/-- Modelled from the spec: `holdem_functions.generate_random_boards` (not
under `src/`) produces `N` independent completion boards, each sampled from
the deck without replacement.  The per-trial random draw is abstracted as a
caller-supplied `sampler`; the engine only consumes the resulting stream. -/
def generate_random_boards (sampler : Nat → List Card) (deck : List Card)
    (numIterations : Nat) (boardLength : Nat) : List (List Card) :=
  (List.range numIterations).map sampler

/-- Modelled from the spec: `holdem_functions.generate_deck` (not under
`src/`) returns the 52-card domain minus every already-known card; it
performs no validation and silently drops duplicates. -/
def generate_deck (known : List (List Card)) : List Card :=
  (List.range 52).filter (fun c => !(known.any (fun g => g.contains c)))

/-- The trial-generation mode chosen by lines 72–75 and 164–167: exhaustive
exactly when a board (possibly empty) was supplied, random otherwise. -/
inductive Mode where
  | exhaustive
  | random
deriving DecidableEq

/-- Mode selection as written in the source: `if given_board is not None:
generate_boards = generate_exhaustive_boards else: generate_random_boards`. -/
def selectMode (givenBoard : Option (List Card)) : Mode :=
  if givenBoard.isSome then Mode.exhaustive else Mode.random

/-- The completion length `L = 5 - |given_board|` of the specification. -/
def completionLength (givenBoard : Option (List Card)) : Nat :=
  5 - (givenBoard.getD []).length

/-- A consequence of claim C4's selection rule that holds for EVERY reading
of its informal "small enough to enumerate feasibly" side condition: when a
board is supplied but the completion length is 0, the antecedent
"supplied ∧ L > 0 ∧ feasible" is false regardless of feasibility, so the
claim's "otherwise" branch demands random mode. -/
def claimC4FullBoardRandom : Prop :=
  ∀ givenBoard : Option (List Card),
    givenBoard.isSome → completionLength givenBoard = 0 →
      selectMode givenBoard = Mode.random

/-- The trial stream produced for one run (lines 71–78 / 161–173): board
length from the given board, then the selected generator. -/
def trialStream (sampler : Nat → List Card) (deck : List Card)
    (givenBoard : Option (List Card)) (numIterations : Nat) :
    List (List Card) :=
  let boardLength := (givenBoard.getD []).length
  match selectMode givenBoard with
  | Mode.exhaustive => generate_exhaustive_boards deck numIterations boardLength
  | Mode.random => generate_random_boards sampler deck numIterations boardLength

/-- `_evaluate` (lines 64–101): sequential reducer plus probability return. -/
def seq_evaluate (O : Oracle) (holeCards : List (List Card))
    (deck : List Card) (givenBoard : Option (List Card))
    (numIterations : Nat) (sampler : Nat → List Card) :
    Except EvalError (Rat × Rat) :=
  probReturn (seqRun O holeCards givenBoard
    (trialStream sampler deck givenBoard numIterations)).1

/-- Line 118: `proc_id = int(multiprocessing.current_process().name[-1]) - 1`
for a worker named `PoolWorker-w`.  `name[-1]` is the last character of the
decimal numeral of `w`, i.e. the digit `w % 10`, so `proc_id = w % 10 - 1`
as a (possibly negative) integer. -/
def procId (w : Nat) : Int :=
  (w % 10 : Int) - 1

/-- The flat index written by worker `w` for winner slot `wi`
(line 134): `proc_id * (num_players + 1) + winner_index`. -/
def winnerSlot (np w wi : Nat) : Int :=
  procId w * ((np : Int) + 1) + (wi : Int)

/-- The flat index written by worker `w` for player `p`'s category-`c`
histogram bucket (lines 137–138): `10 * (proc_id * num_players + index) +
result[0]`. -/
def histSlot (np w p c : Nat) : Int :=
  10 * (procId w * (np : Int) + (p : Int)) + (c : Int)

/-- Python list indexing with possibly negative index: `l[i]` for `-len ≤ i
< 0` addresses `l[len + i]`.  (Out-of-range indices raise in Python; the
theorems below stay in range.) -/
def pyIdx (len : Nat) (i : Int) : Nat :=
  if 0 ≤ i then i.toNat else len - (-i).toNat

/-- `l[i] += x` on a shared counter array addressed with Python (possibly
negative) index semantics. -/
def pyBumpAt (l : List Nat) (i : Int) (x : Nat) : List Nat :=
  bumpAt l (pyIdx l.length i) x

/-- One execution of `_simulation` (lines 104–138): the per-trial body run
by the worker process named `PoolWorker-w`, writing into the two shared flat
arrays.  The trial is paired with the pool-worker number `w` that the
scheduler handed it to. -/
def parStep (O : Oracle) (holeCards : List (List Card))
    (givenBoard : Option (List Card))
    (acc : List Nat × List Nat) (t : List Card × Nat) :
    List Nat × List Nat :=
  let np := holeCards.length
  let board := buildFullBoard givenBoard t.1
  let results := trialResults O holeCards board
  let wi := O.compareHands results
  (pyBumpAt acc.1 (winnerSlot np t.2 wi) 1,
   results.enum.foldl
     (fun h p => pyBumpAt h (histSlot np t.2 p.1 p.2.1) 1) acc.2)

/-- The shared counter arrays allocated at lines 156–159:
`num_processes * (num_players + 1)` ints and `num_processes * num_players *
10` ints, all zero. -/
def parInit (W np : Nat) : List Nat × List Nat :=
  (List.replicate (W * (np + 1)) 0, List.replicate (W * np * 10) 0)

/-- `pool.map(_simulation, boards)` (line 173): every trial is processed by
exactly one worker, exactly once; the scheduler's choice of worker for each
trial is the second component of each pair. -/
def parRun (O : Oracle) (holeCards : List (List Card))
    (givenBoard : Option (List Card)) (W : Nat)
    (trials : List (List Card × Nat)) : List Nat × List Nat :=
  trials.foldl (parStep O holeCards givenBoard) (parInit W holeCards.length)

/-- `_parallel_evaluate` (lines 150–188): generate the trial stream, run the
workers (trial `i` goes to pool worker `assign i`), and return
`winner_list[1] / float(sum(winner_list)), winner_list[2] / ...` computed on
the RAW sharded array (lines 187–188) — not on the combined tally. -/
def parallel_evaluate (O : Oracle) (holeCards : List (List Card))
    (deck : List Card) (givenBoard : Option (List Card))
    (numIterations : Nat) (sampler : Nat → List Card)
    (W : Nat) (assign : Nat → Nat) : Except EvalError (Rat × Rat) :=
  let trials := trialStream sampler deck givenBoard numIterations
  let assigned := trials.enum.map (fun p => (p.2, assign p.1))
  probReturn (parRun O holeCards givenBoard W assigned).1

/-- `evaluate` (lines 32–61): build the two-player hole-card tuple and the
deck from all known cards, then dispatch on `is_parallel`.  The source does
no input validation whatsoever here (lines 43–50 only parse the cards and
build the deck). -/
def evaluate (O : Oracle) (holeCards adversaryHoleCards : List Card)
    (givenBoard : Option (List Card)) (isParallel : Bool)
    (numIterations : Nat) (sampler : Nat → List Card)
    (W : Nat) (assign : Nat → Nat) : Except EvalError (Rat × Rat) :=
  let allCards := [holeCards, adversaryHoleCards] ++
    (match givenBoard with
     | some b => [b]
     | none => [])
  let deck := generate_deck allCards
  let hc := [holeCards, adversaryHoleCards]
  if isParallel then
    parallel_evaluate O hc deck givenBoard numIterations sampler W assign
  else
    seq_evaluate O hc deck givenBoard numIterations sampler

/-- A pair-list fold: apply `upd` at each (index, value) pair in order.  The
final-reduction loops of `_parallel_evaluate` are instances of this. -/
def applyPairs {S : Type} (upd : S → Nat → Nat → S)
    (ps : List (Nat × Nat)) (s : S) : S :=
  ps.foldl (fun s p => upd s p.1 p.2) s

/-- `for index, element in enumerate(flat): ...` as a fold. -/
def reduceLoop {S : Type} (upd : S → Nat → Nat → S) (flat : List Nat)
    (s : S) : S :=
  applyPairs upd flat.enum s

/-- One step of the winner-reduction loop (line 180):
`combined_winner_list[index % (num_players+1)] += element`. -/
def winnerUpd (np : Nat) (s : List Nat) (i x : Nat) : List Nat :=
  bumpAt s (i % (np + 1)) x

/-- Lines 175 and 179–180: the combined winner/tie tally obtained by summing
the flat sharded `winner_list` into `num_players + 1` slots. -/
def combined_winner_list (np : Nat) (flat : List Nat) : List Nat :=
  reduceLoop (winnerUpd np) flat (List.replicate (np + 1) 0)

/-- One step of the histogram-reduction loop (line 182):
`combined_histograms[(index // 10) % num_players][index % 10] += element`. -/
def histUpd (np : Nat) (s : List (List Nat)) (i x : Nat) : List (List Nat) :=
  s.set (i / 10 % np) (bumpAt (s.getD (i / 10 % np) []) (i % 10) x)

/-- Lines 176–177 and 181–182: the combined per-player histograms obtained
by summing the flat sharded `result_histograms`. -/
def combined_histograms (np : Nat) (flat : List Nat) : List (List Nat) :=
  reduceLoop (histUpd np) flat (List.replicate np (List.replicate 10 0))

/-- Reduce every index of an (index, value) pair list modulo the shard
block size `B`; used to relate the enumeration of a concatenation of shard
blocks to the per-block enumerations. -/
def normIdx (B : Nat) (ps : List (Nat × Nat)) : List (Nat × Nat) :=
  ps.map (fun p => (p.1 % B, p.2))

/-- A concrete oracle for witnesses: every hand gets category 0 and
`compare_hands` always names player 0 the winner (winner index 1). -/
def oracleP0 : Oracle :=
  ⟨fun _ _ => (0, 0), fun _ => 1⟩

/-- A concrete oracle for witnesses: `compare_hands` always names player 1
the winner (winner index 2). -/
def oracleP1 : Oracle :=
  ⟨fun _ _ => (0, 0), fun _ => 2⟩

/-- A heap of Python list objects, for reasoning about aliasing and in-place
mutation: cell `r` holds the list object referenced by `r`. -/
abbrev Heap := List (List Card)

/-- The board-building fragment shared verbatim by the sequential loop body
(lines 80–84) and `_simulation` (lines 110–115), with Python reference
semantics made explicit: `board = given_board[:]` allocates a FRESH cell
holding a copy of `given_board`'s contents (at address `h.length`), and
`board.extend(remaining_board)` mutates that fresh cell in place.  When
`given_board` is falsy, `board` simply aliases `remaining_board`'s cell and
nothing is mutated.  Returns the heap after the fragment and the reference
held by `board`. -/
def trialBoardBuild (h : Heap) (givenRef remRef : Nat) : Heap × Nat :=
  let gb := h.getD givenRef []
  if gb.isEmpty then (h, remRef)
  else
    let h1 := h ++ [gb]
    let boardRef := h.length
    let h2 := h1.set boardRef ((h1.getD boardRef []) ++ (h1.getD remRef []))
    (h2, boardRef)

/-! ### Helper lemmas about counter updates -/

theorem getD_set_self {α : Type} (l : List α) (i : Nat) (v d : α)
    (h : i < l.length) : (l.set i v).getD i d = v := by
  simp [List.getD_eq_getElem?_getD, List.getElem?_set_self', h]

theorem getD_set_other {α : Type} (l : List α) {i j : Nat} (v d : α)
    (h : i ≠ j) : (l.set i v).getD j d = l.getD j d := by
  simp [List.getD_eq_getElem?_getD, List.getElem?_set_ne h]

theorem length_bumpAt (l : List Nat) (i x : Nat) :
    (bumpAt l i x).length = l.length :=
  List.length_set ..

theorem sum_bumpAt (l : List Nat) (i x : Nat) (h : i < l.length) :
    (bumpAt l i x).sum = l.sum + x := by
  induction l generalizing i with
  | nil => simp at h
  | cons a l ih =>
    cases i with
    | zero =>
      show ((a + x) :: l).sum = (a :: l).sum + x
      simp
      omega
    | succ i =>
      have hi : i < l.length := by simpa using h
      show (a :: bumpAt l i x).sum = (a :: l).sum + x
      simp [ih i hi]
      omega

theorem slot_unique {k a b r s : Int} (hk : 0 < k) (hr0 : 0 ≤ r) (hrk : r < k)
    (hs0 : 0 ≤ s) (hsk : s < k) (h : a * k + r = b * k + s) : a = b ∧ r = s := by
  have hab : a = b := by
    rcases lt_trichotomy a b with hlt | heq | hgt
    · exfalso
      have h2 : 1 * k ≤ (b - a) * k :=
        mul_le_mul_of_nonneg_right (by omega) (le_of_lt hk)
      have h3 : (b - a) * k = r - s := by linear_combination -h
      linarith
    · exact heq
    · exfalso
      have h2 : 1 * k ≤ (a - b) * k :=
        mul_le_mul_of_nonneg_right (by omega) (le_of_lt hk)
      have h3 : (a - b) * k = s - r := by linear_combination h
      linarith
  subst hab
  exact ⟨rfl, by linarith⟩

theorem bumpAt_comm (l : List Nat) (i x j y : Nat) :
    bumpAt (bumpAt l i x) j y = bumpAt (bumpAt l j y) i x := by
  by_cases hij : i = j
  · subst hij
    by_cases hi : i < l.length
    · unfold bumpAt
      rw [getD_set_self _ _ _ _ hi, getD_set_self _ _ _ _ hi,
        List.set_set, List.set_set]
      congr 1
      omega
    · have hle := le_of_not_lt hi
      unfold bumpAt
      simp [List.set_eq_of_length_le hle]
  · unfold bumpAt
    rw [getD_set_other _ _ _ hij, getD_set_other _ _ _ (Ne.symm hij)]
    exact List.set_comm _ _ _ hij

theorem applyPairs_append {S : Type} (upd : S → Nat → Nat → S)
    (ps qs : List (Nat × Nat)) (s : S) :
    applyPairs upd (ps ++ qs) s = applyPairs upd qs (applyPairs upd ps s) :=
  List.foldl_append ..

theorem applyPairs_congr_mod {S : Type} (upd : S → Nat → Nat → S) (B : Nat)
    (hB : ∀ (s : S) (i x : Nat), upd s i x = upd s (i % B) x) :
    ∀ (ps : List (Nat × Nat)) (s : S),
      applyPairs upd ps s = applyPairs upd (normIdx B ps) s := by
  intro ps
  induction ps with
  | nil => intro s; rfl
  | cons p ps ih =>
    intro s
    show applyPairs upd ps (upd s p.1 p.2) =
      applyPairs upd (normIdx B ps) (upd s (p.1 % B) p.2)
    rw [← hB, ih]

theorem applyPairs_perm {S : Type} (upd : S → Nat → Nat → S)
    (hC : ∀ (s : S) (i x j y : Nat),
      upd (upd s i x) j y = upd (upd s j y) i x)
    {ps qs : List (Nat × Nat)} (hp : ps.Perm qs) :
    ∀ s : S, applyPairs upd ps s = applyPairs upd qs s := by
  induction hp with
  | nil => intro s; rfl
  | cons x _ ih => intro s; exact ih (upd s x.1 x.2)
  | swap x y _ =>
    intro s
    show applyPairs upd _ (upd (upd s y.1 y.2) x.1 x.2) =
      applyPairs upd _ (upd (upd s x.1 x.2) y.1 y.2)
    rw [hC]
  | trans _ _ ih1 ih2 => intro s; rw [ih1, ih2]

theorem enumFrom_add {α : Type} (o : Nat) (s : List α) :
    ∀ k : Nat, List.enumFrom (o + k) s =
      (List.enumFrom k s).map (fun p => (o + p.1, p.2)) := by
  induction s with
  | nil => intro k; rfl
  | cons a s ih =>
    intro k
    show (o + k, a) :: List.enumFrom (o + k + 1) s =
      ((k, a) :: List.enumFrom (k + 1) s).map (fun p => (o + p.1, p.2))
    rw [List.map_cons, Nat.add_assoc, ih (k + 1)]

theorem enumFrom_append {α : Type} (xs ys : List α) :
    ∀ o : Nat, List.enumFrom o (xs ++ ys) =
      List.enumFrom o xs ++ List.enumFrom (o + xs.length) ys := by
  induction xs with
  | nil => intro o; simp
  | cons a xs ih =>
    intro o
    show (o, a) :: List.enumFrom (o + 1) (xs ++ ys) = _
    rw [ih (o + 1)]
    show (o, a) :: (List.enumFrom (o + 1) xs ++
      List.enumFrom (o + 1 + xs.length) ys) = _
    rw [show o + 1 + xs.length = o + (xs.length + 1) from by omega]
    rfl

theorem normIdx_enumFrom (B o : Nat) (hB : B ∣ o) (s : List Nat) :
    normIdx B (List.enumFrom o s) = normIdx B s.enum := by
  obtain ⟨t, rfl⟩ := hB
  have h1 : List.enumFrom (B * t) s =
      (List.enum s).map (fun p => (B * t + p.1, p.2)) := by
    have h0 := enumFrom_add (B * t) s 0
    simpa [List.enum] using h0
  rw [h1]
  unfold normIdx
  rw [List.map_map]
  apply List.map_congr_left
  intro p _
  simp [Nat.mul_add_mod]

theorem normIdx_enum_join (B : Nat) :
    ∀ (shards : List (List Nat)), (∀ s ∈ shards, s.length = B) →
      ∀ o : Nat, B ∣ o →
        normIdx B (List.enumFrom o shards.flatten) =
          (shards.map (fun s => normIdx B s.enum)).flatten := by
  intro shards
  induction shards with
  | nil =>
    intro _ o _
    simp [normIdx]
  | cons s rest ih =>
    intro hlen o hdvd
    have hs : s.length = B := hlen s (List.mem_cons_self s rest)
    rw [List.flatten_cons, enumFrom_append,
      show normIdx B (List.enumFrom o s ++
        List.enumFrom (o + s.length) rest.flatten) =
          normIdx B (List.enumFrom o s) ++
            normIdx B (List.enumFrom (o + s.length) rest.flatten) from
        List.map_append _ _ _,
      normIdx_enumFrom B o hdvd s,
      ih (fun u hu => hlen u (List.mem_cons_of_mem s hu)) (o + s.length)
        (by rw [hs]; exact Dvd.dvd.add hdvd dvd_rfl),
      List.map_cons, List.flatten_cons]

theorem perm_join {α : Type} {l₁ l₂ : List (List α)} (h : l₁.Perm l₂) :
    l₁.flatten.Perm l₂.flatten := by
  induction h with
  | nil => exact List.Perm.refl _
  | cons x _ ih => exact ih.append_left x
  | swap x y l =>
    show (y ++ (x ++ l.flatten)).Perm (x ++ (y ++ l.flatten))
    rw [← List.append_assoc, ← List.append_assoc]
    exact (List.perm_append_comm).append_right _
  | trans _ _ ih1 ih2 => exact ih1.trans ih2

theorem reduceLoop_join_perm {S : Type} (upd : S → Nat → Nat → S) (B : Nat)
    (hB : ∀ (s : S) (i x : Nat), upd s i x = upd s (i % B) x)
    (hC : ∀ (s : S) (i x j y : Nat),
      upd (upd s i x) j y = upd (upd s j y) i x)
    (shards shards' : List (List Nat))
    (hlen : ∀ s ∈ shards, s.length = B) (hp : shards.Perm shards')
    (s0 : S) :
    reduceLoop upd shards.flatten s0 = reduceLoop upd shards'.flatten s0 := by
  have hlen' : ∀ s ∈ shards', s.length = B := fun s hs =>
    hlen s (hp.mem_iff.mpr hs)
  have e1 := normIdx_enum_join B shards hlen 0 (dvd_zero B)
  have e2 := normIdx_enum_join B shards' hlen' 0 (dvd_zero B)
  show applyPairs upd (List.enumFrom 0 shards.flatten) s0 =
    applyPairs upd (List.enumFrom 0 shards'.flatten) s0
  calc applyPairs upd (List.enumFrom 0 shards.flatten) s0
      = applyPairs upd (normIdx B (List.enumFrom 0 shards.flatten)) s0 :=
        applyPairs_congr_mod upd B hB _ s0
    _ = applyPairs upd ((shards.map (fun s => normIdx B s.enum)).flatten)
          s0 := by rw [e1]
    _ = applyPairs upd ((shards'.map (fun s => normIdx B s.enum)).flatten)
          s0 := applyPairs_perm upd hC (perm_join (hp.map _)) s0
    _ = applyPairs upd (normIdx B (List.enumFrom 0 shards'.flatten)) s0 :=
        by rw [e2]
    _ = applyPairs upd (List.enumFrom 0 shards'.flatten) s0 :=
        (applyPairs_congr_mod upd B hB _ s0).symm

theorem winnerUpd_mod (np : Nat) : ∀ (s : List Nat) (i x : Nat),
    winnerUpd np s i x = winnerUpd np s (i % (np + 1)) x := by
  intro s i x
  unfold winnerUpd
  rw [Nat.mod_mod_of_dvd i dvd_rfl]

theorem winnerUpd_comm (np : Nat) : ∀ (s : List Nat) (i x j y : Nat),
    winnerUpd np (winnerUpd np s i x) j y =
      winnerUpd np (winnerUpd np s j y) i x :=
  fun s i x j y => bumpAt_comm s (i % (np + 1)) x (j % (np + 1)) y

theorem histUpd_mod (np : Nat) : ∀ (s : List (List Nat)) (i x : Nat),
    histUpd np s i x = histUpd np s (i % (10 * np)) x := by
  intro s i x
  have e1 : i % (10 * np) / 10 % np = i / 10 % np := by
    rw [Nat.div_mod_eq_mod_mul_div, Nat.mod_mod_of_dvd i dvd_rfl,
      ← Nat.div_mod_eq_mod_mul_div]
  have e2 : i % (10 * np) % 10 = i % 10 :=
    Nat.mod_mod_of_dvd i (dvd_mul_right 10 np)
  unfold histUpd
  rw [e1, e2]

theorem histUpd_comm (np : Nat) : ∀ (s : List (List Nat)) (i x j y : Nat),
    histUpd np (histUpd np s i x) j y =
      histUpd np (histUpd np s j y) i x := by
  intro s i x j y
  unfold histUpd
  by_cases hr : i / 10 % np = j / 10 % np
  · rw [hr]
    by_cases hlt : j / 10 % np < s.length
    · rw [getD_set_self _ _ _ _ hlt, getD_set_self _ _ _ _ hlt,
        List.set_set, List.set_set, bumpAt_comm]
    · have hle := le_of_not_lt hlt
      simp [List.set_eq_of_length_le hle]
  · rw [getD_set_other _ _ _ hr, getD_set_other _ _ _ (Ne.symm hr),
      List.set_comm _ _ _ hr]

/-! ### Claim theorems -/

/-- C1 (code_bug evidence): for the same exhaustive Trial Source output
(deck `[20,21]`, one remaining board card, hence trials `[20]` and `[21]`)
with two pool workers each processing one trial, the sequential and the
parallel reducers produce identical combined tallies (both win/tie counts
and histograms), yet the two paths of `evaluate` return DIFFERENT win
probabilities: the sequential path returns `(1, 0)` while the parallel path
returns `(1/2, 0)`, because lines 187–188 divide slots of the raw sharded
`winner_list` instead of the combined tally. -/
theorem c1_parallel_return_diverges_from_sequential :
    seq_evaluate oracleP0 [[0, 1], [2, 3]] [20, 21] (some [10, 11, 12, 13]) 5
        (fun _ => []) = Except.ok (1, 0) ∧
    parallel_evaluate oracleP0 [[0, 1], [2, 3]] [20, 21]
        (some [10, 11, 12, 13]) 5 (fun _ => []) 2 (fun i => i + 1) =
      Except.ok (1/2, 0) ∧
    combined_winner_list 2
        (parRun oracleP0 [[0, 1], [2, 3]] (some [10, 11, 12, 13]) 2
          ((trialStream (fun _ => []) [20, 21] (some [10, 11, 12, 13])
            5).enum.map (fun p => (p.2, p.1 + 1)))).1 =
      (seqRun oracleP0 [[0, 1], [2, 3]] (some [10, 11, 12, 13])
        (trialStream (fun _ => []) [20, 21] (some [10, 11, 12, 13]) 5)).1 ∧
    combined_histograms 2
        (parRun oracleP0 [[0, 1], [2, 3]] (some [10, 11, 12, 13]) 2
          ((trialStream (fun _ => []) [20, 21] (some [10, 11, 12, 13])
            5).enum.map (fun p => (p.2, p.1 + 1)))).2 =
      (seqRun oracleP0 [[0, 1], [2, 3]] (some [10, 11, 12, 13])
        (trialStream (fun _ => []) [20, 21] (some [10, 11, 12, 13]) 5)).2 ∧
    (Except.ok ((1 : Rat), (0 : Rat)) :
        Except EvalError (Rat × Rat)) ≠ Except.ok (1/2, 0) := by
  refine ⟨?_, ?_, by decide, by decide, ?_⟩
  · show probReturn (seqRun oracleP0 [[0, 1], [2, 3]] (some [10, 11, 12, 13])
      (trialStream (fun _ => []) [20, 21] (some [10, 11, 12, 13]) 5)).1 =
        Except.ok (1, 0)
    rw [show (seqRun oracleP0 [[0, 1], [2, 3]] (some [10, 11, 12, 13])
      (trialStream (fun _ => []) [20, 21] (some [10, 11, 12, 13]) 5)).1 =
        [0, 2, 0] from by decide]
    norm_num [probReturn]
  · show probReturn (parRun oracleP0 [[0, 1], [2, 3]] (some [10, 11, 12, 13])
      2 ((trialStream (fun _ => []) [20, 21] (some [10, 11, 12, 13])
        5).enum.map (fun p => (p.2, (fun i => i + 1) p.1)))).1 =
          Except.ok (1/2, 0)
    rw [show (parRun oracleP0 [[0, 1], [2, 3]] (some [10, 11, 12, 13]) 2
      ((trialStream (fun _ => []) [20, 21] (some [10, 11, 12, 13])
        5).enum.map (fun p => (p.2, (fun i => i + 1) p.1)))).1 =
          [0, 1, 0, 0, 1, 0] from by decide]
    norm_num [probReturn]
  · intro h
    rw [Except.ok.injEq, Prod.mk.injEq] at h
    exact absurd h.1 (by norm_num)

/-- C2 (counterexample): in a parallel run with `W = 10` pool workers, the
worker named `PoolWorker-10` parses only the final character `'0'` of its
name (line 118), deriving shard index `int('0') - 1 = -1`, which is NOT a
shard index in `0..W-1`. -/
theorem c2_shard_index_out_of_range :
    procId 10 = -1 ∧ ¬ (0 ≤ procId 10 ∧ procId 10 ≤ (10 : Int) - 1) := by
  decide

/-- C3 (code_bug evidence): on an input whose Trial Source yields zero
trials (random mode with `num_iterations = 0`), both reducers fail with the
division-by-zero of `float(sum(winner_list))` at lines 100–101 / 187–188;
the source defines no `EmptyTrialSet` error (no such identifier exists in
the module — `EvalError` faithfully has only the `zeroDivision` outcome). -/
theorem c3_zero_trials_division_by_zero :
    trialStream (fun _ => []) [4, 5, 6] none 0 = [] ∧
    seq_evaluate oracleP0 [[0, 1], [2, 3]] [4, 5, 6] none 0 (fun _ => []) =
      Except.error EvalError.zeroDivision ∧
    parallel_evaluate oracleP0 [[0, 1], [2, 3]] [4, 5, 6] none 0
        (fun _ => []) 2 (fun i => i + 1) =
      Except.error EvalError.zeroDivision := by
  refine ⟨by decide, ?_, ?_⟩
  · show probReturn (seqRun oracleP0 [[0, 1], [2, 3]] none
      (trialStream (fun _ => []) [4, 5, 6] none 0)).1 =
        Except.error EvalError.zeroDivision
    rw [show (seqRun oracleP0 [[0, 1], [2, 3]] none
      (trialStream (fun _ => []) [4, 5, 6] none 0)).1 = [0, 0, 0] from
        by decide]
    norm_num [probReturn]
  · show probReturn (parRun oracleP0 [[0, 1], [2, 3]] none 2
      ((trialStream (fun _ => []) [4, 5, 6] none 0).enum.map
        (fun p => (p.2, (fun i => i + 1) p.1)))).1 =
          Except.error EvalError.zeroDivision
    rw [show (parRun oracleP0 [[0, 1], [2, 3]] none 2
      ((trialStream (fun _ => []) [4, 5, 6] none 0).enum.map
        (fun p => (p.2, (fun i => i + 1) p.1)))).1 =
          List.replicate 6 0 from by decide]
    norm_num [probReturn]

/-- C4 (counterexample): with a fully specified 5-card given board the
completion length is `L = 0`, so for EVERY reading of the claim's "small
enough to enumerate feasibly" side condition the claim's selection rule
demands random mode (`claimC4FullBoardRandom` is a consequence of the claim
as stated); but the source selects exhaustive mode whenever a board is
supplied (lines 72–75 / 164–167). -/
theorem c4_full_board_selects_exhaustive :
    ¬ claimC4FullBoardRandom ∧
    selectMode (some [10, 11, 12, 13, 14]) = Mode.exhaustive ∧
    completionLength (some [10, 11, 12, 13, 14]) = 0 := by
  refine ⟨fun h => ?_, rfl, rfl⟩
  have h5 := h (some [10, 11, 12, 13, 14]) rfl rfl
  exact absurd h5 (by decide)

/-- C5 (code_bug evidence): a completed parallel run (three exhaustive
trials split between two workers, player 1 winning all three) returns the
pair `(0, 1/3)`, yet the combined tally gives `win_count[1] / total_trials
= 3/3 = 1`: the returned probability is computed from shard 0's raw slots
(lines 187–188), not from the combined tally required by the claim. -/
theorem c5_parallel_probability_not_from_combined_tally :
    parallel_evaluate oracleP1 [[0, 1], [2, 3]] [20, 21, 22]
        (some [10, 11, 12, 13]) 5 (fun _ => []) 2
        (fun i => if i = 0 then 1 else 2) = Except.ok (0, 1/3) ∧
    (parRun oracleP1 [[0, 1], [2, 3]] (some [10, 11, 12, 13]) 2
        ((trialStream (fun _ => []) [20, 21, 22] (some [10, 11, 12, 13])
          5).enum.map (fun p => (p.2, if p.1 = 0 then 1 else 2)))).1 =
      [0, 0, 1, 0, 0, 2] ∧
    combined_winner_list 2 [0, 0, 1, 0, 0, 2] = [0, 0, 3] ∧
    ((combined_winner_list 2 [0, 0, 1, 0, 0, 2]).getD 2 0 : Rat) /
        (([0, 0, 1, 0, 0, 2] : List Nat).sum : Rat) = 1 ∧
    (1/3 : Rat) ≠ 1 := by
  refine ⟨?_, by decide, by decide, ?_, by norm_num⟩
  · show probReturn (parRun oracleP1 [[0, 1], [2, 3]] (some [10, 11, 12, 13])
      2 ((trialStream (fun _ => []) [20, 21, 22] (some [10, 11, 12, 13])
        5).enum.map
          (fun p => (p.2, (fun i => if i = 0 then 1 else 2) p.1)))).1 =
            Except.ok (0, 1/3)
    rw [show (parRun oracleP1 [[0, 1], [2, 3]] (some [10, 11, 12, 13]) 2
      ((trialStream (fun _ => []) [20, 21, 22] (some [10, 11, 12, 13])
        5).enum.map
          (fun p => (p.2, (fun i => if i = 0 then 1 else 2) p.1)))).1 =
            [0, 0, 1, 0, 0, 2] from by decide]
    norm_num [probReturn]
  · rw [show combined_winner_list 2 [0, 0, 1, 0, 0, 2] = [0, 0, 3] from
      by decide]
    norm_num

/-- C6 (code_bug evidence): `evaluate` performs no input validation: called
with the duplicated hole cards `[0, 0]` (the `["As","As"]` scenario) it
silently builds a deck, runs a full trial, and returns probabilities on both
the sequential and the parallel path, instead of raising any `InvalidInput`
error before trials run (no such error exists in the module). -/
theorem c6_duplicate_input_silently_proceeds :
    evaluate oracleP0 [0, 0] [1, 2] none false 1 (fun _ => [5, 6, 7, 8, 9]) 1
        (fun _ => 1) = Except.ok (1, 0) ∧
    evaluate oracleP0 [0, 0] [1, 2] none true 1 (fun _ => [5, 6, 7, 8, 9]) 1
        (fun _ => 1) = Except.ok (1, 0) ∧
    (trialStream (fun _ => [5, 6, 7, 8, 9])
        (generate_deck [[0, 0], [1, 2]]) none 1).length = 1 := by
  refine ⟨?_, ?_, by decide⟩
  · show probReturn (seqRun oracleP0 [[0, 0], [1, 2]] none
      (trialStream (fun _ => [5, 6, 7, 8, 9])
        (generate_deck ([[0, 0], [1, 2]] ++ [])) none 1)).1 =
          Except.ok (1, 0)
    rw [show (seqRun oracleP0 [[0, 0], [1, 2]] none
      (trialStream (fun _ => [5, 6, 7, 8, 9])
        (generate_deck ([[0, 0], [1, 2]] ++ [])) none 1)).1 = [0, 1, 0] from
          by decide]
    norm_num [probReturn]
  · show probReturn (parRun oracleP0 [[0, 0], [1, 2]] none 1
      ((trialStream (fun _ => [5, 6, 7, 8, 9])
        (generate_deck ([[0, 0], [1, 2]] ++ [])) none 1).enum.map
          (fun p => (p.2, (fun _ => 1) p.1)))).1 = Except.ok (1, 0)
    rw [show (parRun oracleP0 [[0, 0], [1, 2]] none 1
      ((trialStream (fun _ => [5, 6, 7, 8, 9])
        (generate_deck ([[0, 0], [1, 2]] ++ [])) none 1).enum.map
          (fun p => (p.2, (fun _ => 1) p.1)))).1 = [0, 1, 0] from
            by decide]
    norm_num [probReturn]

/-- C7: after the sequential reducer processes any finite trial stream, the
sum of `winner_list` — `win_count[0] + ... + tie_count` — equals the number
of trials produced by the Trial Source: each trial increments exactly one
winner/tie slot (line 95), given the oracle's contract that the winner
index is in `{0, ..., num_players}`. -/
theorem c7_winner_tally_conservation (O : Oracle)
    (holeCards : List (List Card)) (givenBoard : Option (List Card))
    (trials : List (List Card))
    (hO : ∀ rs : List (Nat × Nat), O.compareHands rs ≤ holeCards.length) :
    (seqRun O holeCards givenBoard trials).1.sum = trials.length := by
  have key : ∀ (ts : List (List Card)) (acc : List Nat × List (List Nat)),
      acc.1.length = holeCards.length + 1 →
      (ts.foldl (seqStep O holeCards givenBoard) acc).1.sum =
        acc.1.sum + ts.length := by
    intro ts
    induction ts with
    | nil => intro acc _; simp
    | cons t ts ih =>
      intro acc hlen
      have hwi : O.compareHands
          (trialResults O holeCards (buildFullBoard givenBoard t)) <
            acc.1.length := by
        rw [hlen]
        exact Nat.lt_succ_of_le (hO _)
      have h1 : (seqStep O holeCards givenBoard acc t).1.sum =
          acc.1.sum + 1 := sum_bumpAt _ _ _ hwi
      have h2 : (seqStep O holeCards givenBoard acc t).1.length =
          holeCards.length + 1 := by
        rw [← hlen]
        exact length_bumpAt ..
      show ((ts.foldl (seqStep O holeCards givenBoard)
        (seqStep O holeCards givenBoard acc t))).1.sum =
          acc.1.sum + (t :: ts).length
      rw [ih _ h2, h1]
      simp
      omega
  have h0 := key trials (seqInit holeCards.length) (by simp [seqInit])
  simpa [seqRun, seqInit] using h0

/-- C7 witness: one concrete trial, conservation checked by applying the
theorem. -/
theorem c7_winner_tally_conservation_witness :
    (seqRun oracleP0 [[0, 1], [2, 3]] none [[5, 6, 7, 8, 9]]).1.sum =
      ([[5, 6, 7, 8, 9]] : List (List Card)).length :=
  c7_winner_tally_conservation oracleP0 [[0, 1], [2, 3]] none
    [[5, 6, 7, 8, 9]] (fun _ => by norm_num [oracleP0])

/-- C2 (amended): in every parallel run with at most 9 pool workers, each
worker `PoolWorker-w` derives the fixed shard index `w - 1`, distinct
workers derive distinct indices in `0..W-1`, and every counter write — the
win/tie slot `proc_id*(num_players+1)+winner_index` and the histogram slot
`10*(proc_id*num_players+index)+category` — collides with no write of any
other worker.  (For `W ≥ 10` the name parse of line 118 breaks: see the
counterexample.) -/
theorem c2_shard_writes_disjoint (W np w w' : Nat) (hW : W ≤ 9)
    (hw1 : 1 ≤ w) (hwW : w ≤ W) (hw1' : 1 ≤ w') (hwW' : w' ≤ W) :
    (procId w = (w : Int) - 1 ∧ 0 ≤ procId w ∧ procId w ≤ (W : Int) - 1) ∧
    (w ≠ w' →
      procId w ≠ procId w' ∧
      (∀ wi wi' : Nat, wi ≤ np → wi' ≤ np →
        winnerSlot np w wi ≠ winnerSlot np w' wi') ∧
      (∀ p c p' c' : Nat, p < np → p' < np → c < 10 → c' < 10 →
        histSlot np w p c ≠ histSlot np w' p' c')) := by
  have hmod : ∀ v : Nat, 1 ≤ v → v ≤ W → procId v = (v : Int) - 1 := by
    intro v _ h2
    unfold procId
    omega
  have hpw := hmod w hw1 hwW
  have hpw' := hmod w' hw1' hwW'
  refine ⟨⟨hpw, by rw [hpw]; omega, by rw [hpw]; omega⟩, fun hne => ?_⟩
  refine ⟨by rw [hpw, hpw']; intro hcontra; apply hne; omega, ?_, ?_⟩
  · intro wi wi' hwi hwi' heq
    unfold winnerSlot at heq
    have hu := slot_unique (k := (np : Int) + 1) (by positivity)
      (Int.natCast_nonneg wi) (by omega) (Int.natCast_nonneg wi')
      (by omega) heq
    rw [hpw, hpw'] at hu
    exact hne (by omega)
  · intro p c p' c' hp hp' hc hc' heq
    unfold histSlot at heq
    have heq2 : (procId w * (np : Int) + (p : Int)) * 10 + (c : Int) =
        (procId w' * (np : Int) + (p' : Int)) * 10 + (c' : Int) := by
      linear_combination heq
    have hu := slot_unique (k := (10 : Int)) (by norm_num)
      (Int.natCast_nonneg c) (by omega) (Int.natCast_nonneg c')
      (by omega) heq2
    have hu2 := slot_unique (k := (np : Int)) (by omega)
      (Int.natCast_nonneg p) (by omega) (Int.natCast_nonneg p')
      (by omega) hu.1
    rw [hpw, hpw'] at hu2
    exact hne (by omega)

/-- C2 witness: with 2 workers and 2 players, worker 1's and worker 2's
winner-slot and histogram writes never collide. -/
theorem c2_shard_writes_disjoint_witness :
    winnerSlot 2 1 0 ≠ winnerSlot 2 2 0 ∧
    histSlot 2 1 0 0 ≠ histSlot 2 2 0 0 := by
  have h := c2_shard_writes_disjoint 2 2 1 2 (by norm_num) (by norm_num)
    (by norm_num) (by norm_num) (by norm_num)
  exact ⟨(h.2 (by norm_num)).2.1 0 0 (by norm_num) (by norm_num),
    (h.2 (by norm_num)).2.2 0 0 0 0 (by norm_num) (by norm_num)
      (by norm_num) (by norm_num)⟩

/-- C4 (amended): the system selects exhaustive mode exactly when a
GivenBoard is supplied — of any length, INCLUDING a full board with
completion length `L = 0`, and with no feasibility check on
`C(|Deck|, L)` — and otherwise selects random mode.  Exhaustive mode
produces every distinct combination of `L = 5 - |board|` deck cards exactly
once (`C(|Deck|, L)` trials, the iteration budget unused); random mode
produces `N` sampler-drawn boards, one per iteration. -/
theorem c4_mode_selection (givenBoard : Option (List Card))
    (deck : List Card) (numIterations boardLength : Nat)
    (sampler : Nat → List Card) (hnd : deck.Nodup) :
    (selectMode givenBoard = Mode.exhaustive ↔ givenBoard.isSome = true) ∧
    (generate_exhaustive_boards deck numIterations boardLength).Nodup ∧
    (∀ b : List Card,
      b ∈ generate_exhaustive_boards deck numIterations boardLength ↔
        b.Sublist deck ∧ b.length = 5 - boardLength) ∧
    (generate_exhaustive_boards deck numIterations boardLength).length =
      deck.length.choose (5 - boardLength) ∧
    (generate_random_boards sampler deck numIterations boardLength).length =
      numIterations := by
  refine ⟨?_, List.nodup_sublistsLen _ hnd,
    fun b => List.mem_sublistsLen, List.length_sublistsLen ..,
    by simp [generate_random_boards]⟩
  cases givenBoard <;> simp [selectMode]

/-- C4 witness: a 3-card deck and a 3-card board give `C(3, 2) = 3`
exhaustive completions, and the claim's conclusions hold there. -/
theorem c4_mode_selection_witness :
    (generate_exhaustive_boards [1, 2, 3] 100 3).length =
      ([1, 2, 3] : List Card).length.choose (5 - 3) :=
  (c4_mode_selection (some [7, 8, 9]) [1, 2, 3] 100 3 (fun _ => [])
    (by decide)).2.2.2.1

/-- C9: with a fully specified 5-card given board the completion length is
0, the exhaustive Trial Source yields exactly one (empty) completion, the
engine processes that single trial with a deterministic outcome, never
divides by zero (the winner-list sum is 1), and the returned pair consists
of probabilities that are each exactly 0 or 1. -/
theorem c9_full_board_single_trial_deterministic (O : Oracle)
    (holeCards : List (List Card)) (deck : List Card) (gb : List Card)
    (numIterations : Nat) (sampler : Nat → List Card)
    (hlen : gb.length = 5) (hnp : holeCards.length = 2)
    (hO : ∀ rs : List (Nat × Nat), O.compareHands rs ≤ 2) :
    trialStream sampler deck (some gb) numIterations = [[]] ∧
    ∃ p0 p1 : Rat,
      seq_evaluate O holeCards deck (some gb) numIterations sampler =
        Except.ok (p0, p1) ∧ (p0 = 0 ∨ p0 = 1) ∧ (p1 = 0 ∨ p1 = 1) := by
  have htr : trialStream sampler deck (some gb) numIterations = [[]] := by
    simp [trialStream, selectMode, generate_exhaustive_boards, hlen,
      List.sublistsLen_zero]
  refine ⟨htr, ?_⟩
  unfold seq_evaluate
  rw [htr]
  have hwile : O.compareHands
      (trialResults O holeCards (buildFullBoard (some gb) [])) ≤ 2 := hO _
  have hrun : (seqRun O holeCards (some gb) [[]]).1 =
      bumpAt (List.replicate 3 0)
        (O.compareHands
          (trialResults O holeCards (buildFullBoard (some gb) []))) 1 := by
    simp [seqRun, seqInit, seqStep, hnp]
  rcases (by omega : O.compareHands
      (trialResults O holeCards (buildFullBoard (some gb) [])) = 0 ∨
    O.compareHands
      (trialResults O holeCards (buildFullBoard (some gb) [])) = 1 ∨
    O.compareHands
      (trialResults O holeCards (buildFullBoard (some gb) [])) = 2)
    with h | h | h
  · refine ⟨0, 0, ?_, Or.inl rfl, Or.inl rfl⟩
    rw [hrun, h,
      show bumpAt (List.replicate 3 0) 0 1 = [1, 0, 0] from by decide]
    norm_num [probReturn]
  · refine ⟨1, 0, ?_, Or.inr rfl, Or.inl rfl⟩
    rw [hrun, h,
      show bumpAt (List.replicate 3 0) 1 1 = [0, 1, 0] from by decide]
    norm_num [probReturn]
  · refine ⟨0, 1, ?_, Or.inl rfl, Or.inr rfl⟩
    rw [hrun, h,
      show bumpAt (List.replicate 3 0) 2 1 = [0, 0, 1] from by decide]
    norm_num [probReturn]

/-- C9 witness: concrete full board, oracle naming player 0 the winner. -/
theorem c9_full_board_single_trial_witness :
    trialStream (fun _ => []) [20, 21] (some [10, 11, 12, 13, 14]) 7 =
      [[]] ∧
    ∃ p0 p1 : Rat,
      seq_evaluate oracleP0 [[0, 1], [2, 3]] [20, 21]
          (some [10, 11, 12, 13, 14]) 7 (fun _ => []) =
        Except.ok (p0, p1) ∧ (p0 = 0 ∨ p0 = 1) ∧ (p1 = 0 ∨ p1 = 1) :=
  c9_full_board_single_trial_deterministic oracleP0 [[0, 1], [2, 3]]
    [20, 21] [10, 11, 12, 13, 14] 7 (fun _ => []) rfl rfl
    (fun _ => by norm_num [oracleP0])

/-- C10: the board-building fragment shared by the sequential loop body and
`_simulation` never mutates the caller-supplied objects: it copies
`given_board` (`given_board[:]`) into a FRESH cell before extending, so
after the fragment every pre-existing heap cell — `given_board`,
`hole_cards`, the deck, the remaining-board object — holds exactly its old
contents, and the resulting `board` holds the given board followed by the
completion (or aliases the untouched completion when no board is given). -/
theorem c10_trial_body_preserves_inputs (h : Heap) (givenRef remRef : Nat)
    (hg : givenRef < h.length) (hr : remRef < h.length) :
    (∀ r, r < h.length →
      (trialBoardBuild h givenRef remRef).1.getD r [] = h.getD r []) ∧
    (trialBoardBuild h givenRef remRef).1.getD
        (trialBoardBuild h givenRef remRef).2 [] =
      (if (h.getD givenRef []).isEmpty then h.getD remRef []
       else h.getD givenRef [] ++ h.getD remRef []) := by
  by_cases hemp : (h.getD givenRef []).isEmpty
  · have hb : trialBoardBuild h givenRef remRef = (h, remRef) := by
      simp only [trialBoardBuild]
      rw [if_pos hemp]
    rw [hb, if_pos hemp]
    exact ⟨fun r _ => rfl, rfl⟩
  · have hb : trialBoardBuild h givenRef remRef =
        ((h ++ [h.getD givenRef []]).set h.length
          (((h ++ [h.getD givenRef []]).getD h.length []) ++
            ((h ++ [h.getD givenRef []]).getD remRef [])), h.length) := by
      simp only [trialBoardBuild]
      rw [if_neg hemp]
    have hfresh : (h ++ [h.getD givenRef []]).getD h.length [] =
        h.getD givenRef [] := by
      rw [List.getD_eq_getElem?_getD, List.getElem?_append_right (le_refl _)]
      simp
    have hrem : (h ++ [h.getD givenRef []]).getD remRef [] =
        h.getD remRef [] := List.getD_append _ _ _ _ hr
    rw [hb, if_neg hemp]
    constructor
    · intro r hrlt
      rw [getD_set_other _ _ _ (by omega : h.length ≠ r)]
      exact List.getD_append _ _ _ _ hrlt
    · rw [getD_set_self _ _ _ _ (by simp), hfresh, hrem]

/-- C10 witness: a concrete three-cell heap (given board, remaining board,
hole cards); the given-board cell is unchanged by the fragment. -/
theorem c10_trial_body_preserves_inputs_witness :
    (trialBoardBuild [[1, 2], [3, 4], [5, 6]] 0 1).1.getD 0 [] =
      ([[1, 2], [3, 4], [5, 6]] : Heap).getD 0 [] :=
  (c10_trial_body_preserves_inputs [[1, 2], [3, 4], [5, 6]] 0 1
    (by norm_num) (by norm_num)).1 0 (by norm_num)

/-- C8: the final reduction of `_parallel_evaluate` (lines 179–182) sums
all shards positionally into one combined tally, and the result is
invariant under every permutation of the shard (worker) order: reducing the
flat counter arrays formed by concatenating the per-worker shard blocks in
any two orders yields the same combined win/tie counts and the same
combined per-player histograms. -/
theorem c8_reduction_permutation_invariant (np : Nat)
    (ws ws' hs hs' : List (List Nat))
    (hw : ∀ s ∈ ws, s.length = np + 1)
    (hh : ∀ s ∈ hs, s.length = 10 * np)
    (pw : ws.Perm ws') (ph : hs.Perm hs') :
    combined_winner_list np ws.flatten =
      combined_winner_list np ws'.flatten ∧
    combined_histograms np hs.flatten =
      combined_histograms np hs'.flatten :=
  ⟨reduceLoop_join_perm (winnerUpd np) (np + 1) (winnerUpd_mod np)
      (winnerUpd_comm np) ws ws' hw pw _,
    reduceLoop_join_perm (histUpd np) (10 * np) (histUpd_mod np)
      (histUpd_comm np) hs hs' hh ph _⟩

/-- C8 witness: two concrete shards summed in both orders. -/
theorem c8_reduction_permutation_invariant_witness :
    combined_winner_list 2
        ([[1, 2, 3], [4, 5, 6]] : List (List Nat)).flatten =
      combined_winner_list 2
        ([[4, 5, 6], [1, 2, 3]] : List (List Nat)).flatten ∧
    combined_histograms 2
        ([List.replicate 20 1, List.replicate 20 2] :
          List (List Nat)).flatten =
      combined_histograms 2
        ([List.replicate 20 2, List.replicate 20 1] :
          List (List Nat)).flatten :=
  c8_reduction_permutation_invariant 2 [[1, 2, 3], [4, 5, 6]]
    [[4, 5, 6], [1, 2, 3]]
    [List.replicate 20 1, List.replicate 20 2]
    [List.replicate 20 2, List.replicate 20 1]
    (by decide) (by decide)
    (List.Perm.swap [4, 5, 6] [1, 2, 3] [])
    (List.Perm.swap (List.replicate 20 2) (List.replicate 20 1) [])

end HoldemCalc
